import Mathlib

/-!
The functions `Fetch` and `convertToFloat` of dsrvlabs/prometheus-proxy.

A shallow embedding of `converter/converter.go`.

* Go strings are byte sequences: `GoString` is a list of byte values.
* `int64` / `uint64` are `Int` / `Nat` with explicit wrap-around.
* A `float64` result is represented by the exact number it denotes.  Every float
  this file can produce is integer valued (`0.0`, `1.0` or `float64(int64)`), so
  `Int` is enough; `float64` below is the int64 → float64 conversion (round to
  nearest, ties to even, 53-bit significand).
* A Go call either returns or panics: `Outcome`.
* The collaborators that `Fetch` calls through an interface or a library
  boundary (HTTP transport, body reader, JSON decoder, selector) are fields of
  `World`.
* Go `json.Unmarshal` into a `map[string]interface{}` is `unmarshalMap`, the
  decoding of a scanned JSON text; the scanner itself stays a parameter.
-/

namespace Converter

/-! ## Strings -/

/-- Go `string`: a sequence of bytes. -/
abbrev GoString := List Nat

/-- The bytes of an ASCII literal. -/
def ascii (s : String) : GoString := s.toList.map Char.toNat

/-- Go `strings.HasPrefix(s, pre)`: `len(s) >= len(pre) && s[:len(pre)] == pre`. -/
def HasPrefix (s pre : GoString) : Bool :=
  decide (pre.length ≤ s.length) && (s.take pre.length == pre)

/-- Go `strings.trimLeftByte`: `for len(s) > 0 && s[0] == c { s = s[1:] }`. -/
def trimLeftByte : GoString → Nat → GoString
  | [], _ => []
  | b :: rest, c => if b = c then trimLeftByte rest c else b :: rest

/-- Go `strings.trimLeftASCII`: drop bytes while the first byte is in the set. -/
def trimLeftASCII : GoString → List Nat → GoString
  | [], _ => []
  | b :: rest, as => if as.contains b then trimLeftASCII rest as else b :: rest

/-- Go `strings.TrimLeft(s, cutset)` for an ASCII cutset (bytes below 0x80), which
is what `converter.go` passes (`"0x"`); the rune-decoding branch taken for a
non-ASCII cutset is not modelled. -/
def TrimLeft (s cutset : GoString) : GoString :=
  if s = [] ∨ cutset = [] then s
  else
    match cutset with
    | [c] => trimLeftByte s c
    | _ => trimLeftASCII s cutset

/-! ## strconv -/

/-- The sentinel errors of `strconv`. -/
inductive ErrKind
  | ErrSyntax
  | ErrRange
  | ErrBase
  | ErrBitSize
  deriving DecidableEq, Repr

/-- Go `strconv.NumError`. -/
structure NumError where
  Func : String
  Num : GoString
  Err : ErrKind
  deriving DecidableEq, Repr

/-- Go `strconv.lower`: `c | ('x' - 'X')`. -/
def lower (c : Nat) : Nat := c ||| 32

/-- The `switch` of the `strconv.ParseUint` loop that maps a byte to its digit
value (`base0` is false, so `'_'` is not special). -/
def digitOf (c : Nat) : Option Nat :=
  if 48 ≤ c ∧ c ≤ 57 then some (c - 48)                          -- '0' <= c <= '9'
  else if 97 ≤ lower c ∧ lower c ≤ 122 then some (lower c - 97 + 10)  -- 'a' <= lower(c) <= 'z'
  else none

/-- The digit loop of `strconv.ParseUint`, `n` being the `uint64` accumulator.
Returns the value and the kind of error, if any. -/
def parseUintLoop (base maxVal cutoff : Nat) : GoString → Nat → Nat × Option ErrKind
  | [], n => (n, none)
  | c :: cs, n =>
    match digitOf c with
    | none => (0, some ErrKind.ErrSyntax)
    | some d =>
      if base % 256 ≤ d then (0, some ErrKind.ErrSyntax)          -- d >= byte(base)
      else if cutoff ≤ n then (maxVal, some ErrKind.ErrRange)     -- n*base overflows
      else
        let nb := (n * base) % 2 ^ 64                             -- n *= uint64(base)
        let n1 := (nb + d) % 2 ^ 64                               -- n1 := n + uint64(d)
        if n1 < nb ∨ maxVal < n1 then (maxVal, some ErrKind.ErrRange)
        else parseUintLoop base maxVal cutoff cs n1

/-- Go `strconv.ParseUint(s, base, bitSize)` for `base ≠ 0`.  (Base 0, the
prefix-detecting mode, is never requested by `converter.go` and is reported as
an invalid base here.) -/
def ParseUint (s : GoString) (base bitSize : Nat) : Nat × Option NumError :=
  if s = [] then (0, some ⟨"ParseUint", s, ErrKind.ErrSyntax⟩)
  else if ¬ (2 ≤ base ∧ base ≤ 36) then (0, some ⟨"ParseUint", s, ErrKind.ErrBase⟩)
  else if 64 < bitSize then (0, some ⟨"ParseUint", s, ErrKind.ErrBitSize⟩)
  else
    let bits := if bitSize = 0 then 64 else bitSize
    let cutoff := (2 ^ 64 - 1) / base + 1
    let maxVal := 2 ^ bits - 1
    match parseUintLoop base maxVal cutoff s 0 with
    | (n, none) => (n, none)
    | (n, some k) => (n, some ⟨"ParseUint", s, k⟩)

/-- Go conversion `int64(x)`: wrap into the signed 64-bit range. -/
def int64 (x : Int) : Int := (x + 2 ^ 63) % 2 ^ 64 - 2 ^ 63

/-- Go `strconv.ParseInt(s, base, bitSize)` (for `base ≠ 0`, `bitSize ≤ 64`). -/
def ParseInt (s : GoString) (base bitSize : Nat) : Int × Option NumError :=
  match s with
  | [] => (0, some ⟨"ParseInt", s, ErrKind.ErrSyntax⟩)
  | c :: rest =>
    -- pick off leading sign
    let neg : Bool := decide (c ≠ 43) && decide (c = 45)               -- '+' is 43, '-' is 45
    let body : GoString := if c = 43 then rest else if c = 45 then rest else s
    -- convert unsigned and check range
    match ParseUint body base bitSize with
    | (un, err) =>
      match err.filter (fun e => decide (e.Err ≠ ErrKind.ErrRange)) with
      | some e => (0, some ⟨"ParseInt", s, e.Err⟩)
      | none =>
        let bits := if bitSize = 0 then 64 else bitSize
        let cutoff : Nat := 2 ^ (bits - 1)
        if neg = false ∧ cutoff ≤ un then
          (Int.ofNat (cutoff - 1), some ⟨"ParseInt", s, ErrKind.ErrRange⟩)
        else if neg = true ∧ cutoff < un then
          (- Int.ofNat cutoff, some ⟨"ParseInt", s, ErrKind.ErrRange⟩)
        else
          let n := int64 (Int.ofNat un)
          (if neg then int64 (- n) else n, none)

/-! ## Values, errors, outcomes -/

/-- Go conversion `float64(n)` of an `int64`: the nearest double, ties to even.
`e` is the number of low bits that do not fit the 53-bit significand. -/
def float64 (n : Int) : Int :=
  let a := n.natAbs
  let e := ((List.range 11).filter (fun k => decide (2 ^ (53 + k) ≤ a))).length
  let u := 2 ^ e
  let q := a / u
  let r := a % u
  let q1 := if u < 2 * r ∨ (2 * r = u ∧ q % 2 = 1) then q + 1 else q
  if n < 0 then - Int.ofNat (q1 * u) else Int.ofNat (q1 * u)

/-- A Go `interface{}` value as `convertToFloat` can receive it: the untyped nil
interface, the dynamic types `encoding/json` decodes into (`string`, `float64`,
`bool`, `map[string]interface{}`, `[]interface{}`), and `int`.  A `float64` is
carried as its IEEE-754 bit pattern. -/
inductive Value
  | nil
  | str (s : GoString)
  | int (n : Int)
  | bool (b : Bool)
  | float (bits : Nat)
  | map (m : List (GoString × Value))
  | slice (xs : List Value)

/-- Go `reflect.Kind`, as far as the `switch` of `convertToFloat` tells kinds apart. -/
inductive Kind
  | String
  | Int
  | Bool
  | Float64
  | Map
  | Slice
  deriving DecidableEq, Repr

/-- Go `reflect.TypeOf(v)`, followed by the kind of that type: `TypeOf` of the
nil interface is the nil `reflect.Type`, which has no kind to ask for. -/
def typeKind : Value → Option Kind
  | Value.nil => none
  | Value.str _ => some Kind.String
  | Value.int _ => some Kind.Int
  | Value.bool _ => some Kind.Bool
  | Value.float _ => some Kind.Float64
  | Value.map _ => some Kind.Map
  | Value.slice _ => some Kind.Slice

/-- Go `error` values that reach the results of this package. -/
inductive GoError
  | num (e : NumError)                 -- *strconv.NumError
  | status (code : Int)                -- fmt.Errorf("unexpected status code: %d", code)
  | external (msg : String)            -- raised by a collaborator
  deriving DecidableEq, Repr

/-- What a Go call does: it returns, or it panics. -/
inductive Outcome (α : Type)
  | ret (a : α)
  | panic (msg : String)
  deriving DecidableEq, Repr

/-- The message of the runtime panic on a method call through a nil interface. -/
def nilDeref : String := "runtime error: invalid memory address or nil pointer dereference"

/-! ## convertToFloat -/

/-- Go `convertToFloat(value interface{}) (float64, error)`. -/
def convertToFloat (value : Value) : Outcome (Int × Option GoError) :=
  match typeKind value with
  | none => Outcome.panic nilDeref          -- reflect.TypeOf(value).Kind() on a nil Type
  | some _ =>
    match value with
    | Value.str strValue =>
      if HasPrefix strValue (ascii "0x") then
        match ParseInt (TrimLeft strValue (ascii "0x")) 16 64 with
        | (_, some err) => Outcome.ret (0, some (GoError.num err))
        | (outInt, none) => Outcome.ret (float64 outInt, none)
      else
        match ParseInt strValue 10 64 with
        | (outValue, none) => Outcome.ret (float64 outValue, none)
        | (_, some _) =>
          match ParseInt strValue 16 64 with
          | (_, some err) => Outcome.ret (0, some (GoError.num err))
          | (outValue, none) => Outcome.ret (float64 outValue, none)
    | Value.int n => Outcome.ret (float64 n, none)
    | Value.bool b => Outcome.ret (if b then 1 else 0, none)
    | _ => Outcome.ret (0, none)

/-! ## Fetch -/

/-- Go `types.Field` (package `types`): the two members `Fetch` reads. -/
structure Field where
  Selector : GoString
  MetricName : GoString
  deriving DecidableEq, Repr

/-- Go `types.RPCFetchConfig` (package `types`): the members `Fetch` reads. -/
structure RPCFetchConfig where
  Method : GoString
  URL : GoString
  Body : GoString
  Fields : List Field
  deriving DecidableEq, Repr

/-- Go `converter.ResultConvert`. -/
structure ResultConvert where
  Selector : GoString
  MetricName : GoString
  Value : Int
  Err : Option GoError
  deriving DecidableEq, Repr

/-- The decoded body, Go `map[string]interface{}`. -/
abbrev JSONMap := List (GoString × Value)

/-- What `http.NewRequest` builds from method, URL and body reader. -/
structure Request where
  Method : GoString
  URL : GoString
  Body : Option GoString
  deriving DecidableEq, Repr

/-- The part of `*http.Response` that `Fetch` looks at: the status code, and what
`io.ReadAll(resp.Body)` yields. -/
structure Response where
  StatusCode : Int
  Body : Except GoError GoString

/-- The collaborators of `Fetch`. -/
structure World where
  /-- Go `http.NewRequest(method, url, body)`. -/
  NewRequest : GoString → GoString → Option GoString → Except GoError Request
  /-- Go `client.Do(req)` with the two second timeout. -/
  Do : Request → Except GoError Response
  /-- Go `json.Unmarshal(d, &mapData)`. -/
  Unmarshal : GoString → Except GoError JSONMap
  /-- Go `c.selector.Find(mapData, selector)`, returning `(value, err)`. -/
  Find : JSONMap → GoString → Value × Option GoError

/-- The zero `ResultConvert`, which `make` fills the slice with. -/
def zeroResult : ResultConvert := ⟨[], [], 0, none⟩

/-- The `for i, field := range config.Fields` loop of `Fetch`; `ret` is the slice
being filled and `i` the index of the first field of the list. -/
def fetchLoop (w : World) (mapData : JSONMap) :
    List Field → Nat → List ResultConvert → Outcome (List ResultConvert)
  | [], _, ret => Outcome.ret ret
  | field :: rest, i, ret =>
    match w.Find mapData field.Selector with
    | (value, _) =>                           -- err is assigned again on the next line
      match convertToFloat value with
      | Outcome.panic msg => Outcome.panic msg
      | Outcome.ret (convertedValue, err) =>
        fetchLoop w mapData rest (i + 1)
          (ret.set i ⟨field.Selector, field.MetricName, convertedValue, err⟩)

/-- Go `(*converter).Fetch(config)`: the pair `(results, err)`, `none` standing
for the nil slice and for the nil error. -/
def Fetch (w : World) (config : RPCFetchConfig) :
    Outcome (Option (List ResultConvert) × Option GoError) :=
  let reqBodyReader : Option GoString := if config.Body ≠ [] then some config.Body else none
  match w.NewRequest config.Method config.URL reqBodyReader with
  | Except.error err => Outcome.ret (none, some err)
  | Except.ok req =>
    match w.Do req with
    | Except.error err => Outcome.ret (none, some err)
    | Except.ok resp =>
      if resp.StatusCode ≠ 200 then
        Outcome.ret (none, some (GoError.status resp.StatusCode))
      else
        match resp.Body with
        | Except.error err => Outcome.ret (none, some err)
        | Except.ok d =>
          match w.Unmarshal d with
          | Except.error err => Outcome.ret (none, some err)
          | Except.ok mapData =>
            match fetchLoop w mapData config.Fields 0
                (List.replicate config.Fields.length zeroResult) with
            | Outcome.panic msg => Outcome.panic msg
            | Outcome.ret ret => Outcome.ret (some ret, none)

/-! ## Sample collaborators for concrete runs -/

/-- Modelled from the spec: the selector collaborator (package `jsonselector` is
not among the sources).  "Given a generic JSON-decoded value tree and a selector
string, returns the located sub-value or a not-found error"; this one resolves
top-level keys. -/
def keySelector (m : JSONMap) (sel : GoString) : Value × Option GoError :=
  match m.lookup sel with
  | some v => (v, none)
  | none => (Value.nil, some (GoError.external "not found"))

/-- A selector like `keySelector` that hands back the empty string, not nil,
next to its not-found error. -/
def keySelectorEmpty (m : JSONMap) (sel : GoString) : Value × Option GoError :=
  match m.lookup sel with
  | some v => (v, none)
  | none => (Value.str [], some (GoError.external "not found"))

/-- A world whose endpoint answers every request with `status` and `body`, and
whose decoder yields `tree` for that body. -/
def sampleWorld (status : Int) (body : GoString) (tree : JSONMap)
    (find : JSONMap → GoString → Value × Option GoError) : World where
  NewRequest := fun m u b => Except.ok ⟨m, u, b⟩
  Do := fun _ => Except.ok ⟨status, Except.ok body⟩
  Unmarshal := fun d => if d = body then Except.ok tree else Except.error (GoError.external "decode")
  Find := find

/-- A GET configuration with the given fields. -/
def sampleConfig (fields : List Field) : RPCFetchConfig :=
  ⟨ascii "GET", ascii "http://localhost/status", [], fields⟩

/-! ## Integer literals, as the specification words them -/

/-- The value of a byte read as a digit: `0`-`9` count 0 to 9, `a`-`z` and
`A`-`Z` count 10 to 35. -/
def charDigit (c : Nat) : Option Nat :=
  if 48 ≤ c ∧ c ≤ 57 then some (c - 48)
  else if 97 ≤ c ∧ c ≤ 122 then some (c - 87)
  else if 65 ≤ c ∧ c ≤ 90 then some (c - 55)
  else none

/-- Positional value of a run of digits of the base, read after the value `acc`;
`none` when some byte is not a digit of the base. -/
def digitsAcc (base : Nat) : GoString → Nat → Option Nat
  | [], acc => some acc
  | c :: cs, acc =>
    match charDigit c with
    | some d => if d < base then digitsAcc base cs (acc * base + d) else none
    | none => none

/-- An unsigned literal: one or more digits of the base. -/
def natLiteral (base : Nat) (s : GoString) : Option Nat :=
  if s = [] then none else digitsAcc base s 0

/-- A signed literal: an optional `+` or `-`, then one or more digits of the base. -/
def intLiteral (base : Nat) (s : GoString) : Option Int :=
  match s with
  | [] => none
  | c :: rest =>
    if c = 43 then (natLiteral base rest).map Int.ofNat
    else if c = 45 then (natLiteral base rest).map (fun v => - Int.ofNat v)
    else (natLiteral base s).map Int.ofNat

/-- A valid signed 64-bit integer literal of the base, with its value: a signed
literal whose value lies in `[-2^63, 2^63 - 1]`. -/
def int64Literal (base : Nat) (s : GoString) : Option Int :=
  (intLiteral base s).filter (fun v => decide (-(2 : Int) ^ 63 ≤ v ∧ v ≤ 2 ^ 63 - 1))

/-- The string with every leading byte that is `0` or `x` removed. -/
def dropLeading0x (s : GoString) : GoString :=
  s.dropWhile (fun c => decide (c = 48 ∨ c = 120))

/-- The lower-case base-16 rendering of a number (Go `strconv.FormatInt(n, 16)`
for `n ≥ 0`). -/
def hexString (n : Nat) : GoString := (Nat.toDigits 16 n).map Char.toNat

/-! ## Records of the loop -/

/-- What `convertToFloat` returns, for a value on which it returns. -/
def returned (v : Value) : Int × Option GoError :=
  match convertToFloat v with
  | Outcome.ret p => p
  | Outcome.panic _ => (0, none)

/-- The record that the loop of `Fetch` writes for one field. -/
def fieldRecord (w : World) (mapData : JSONMap) (field : Field) : ResultConvert :=
  ⟨field.Selector, field.MetricName,
    (returned (w.Find mapData field.Selector).1).1, (returned (w.Find mapData field.Selector).1).2⟩

/-! ## encoding/json -/

/-- A JSON text as the scanner of `encoding/json` reads it.  A number carries the
bit pattern of the `float64` that the decoder makes of its literal. -/
inductive JSON
  | null
  | bool (b : Bool)
  | number (bits : Nat)
  | string (s : GoString)
  | array (xs : List JSON)
  | object (members : List (GoString × JSON))

mutual
/-- Go `encoding/json`, a JSON value stored into an `interface{}`: nil for null,
`bool`, `float64` for every number, `string`, `[]interface{}` and
`map[string]interface{}`. -/
def JSON.toValue : JSON → Value
  | JSON.null => Value.nil
  | JSON.bool b => Value.bool b
  | JSON.number bits => Value.float bits
  | JSON.string s => Value.str s
  | JSON.array xs => Value.slice (JSON.toValues xs)
  | JSON.object ms => Value.map (JSON.toMembers ms)
/-- The elements of a JSON array, stored one by one. -/
def JSON.toValues : List JSON → List Value
  | [] => []
  | x :: xs => JSON.toValue x :: JSON.toValues xs
/-- The members of a JSON object, stored into a map: a key that comes again
later in the object overwrites the earlier entry. -/
def JSON.toMembers : List (GoString × JSON) → List (GoString × Value)
  | [] => []
  | (k, x) :: ms =>
    if (JSON.toMembers ms).any (fun p => p.1 == k) then JSON.toMembers ms
    else (k, JSON.toValue x) :: JSON.toMembers ms
end

/-- Go `json.Unmarshal(d, &mapData)` for `mapData` of type
`map[string]interface{}`, on what the scanner made of `d` (`none` when `d` is not
a valid JSON text).  An object fills the map; `null` sets the map to nil, which
reads like the empty map, and is no error; any other value is an
`UnmarshalTypeError`. -/
def unmarshalMap (text : Option JSON) : Except GoError JSONMap :=
  match text with
  | none => Except.error (GoError.external "json: SyntaxError")
  | some (JSON.object ms) => Except.ok (JSON.toMembers ms)
  | some JSON.null => Except.ok []
  | some (JSON.bool _) => Except.error (GoError.external "json: cannot unmarshal bool")
  | some (JSON.number _) => Except.error (GoError.external "json: cannot unmarshal number")
  | some (JSON.string _) => Except.error (GoError.external "json: cannot unmarshal string")
  | some (JSON.array _) => Except.error (GoError.external "json: cannot unmarshal array")

/-- The top-level values that `unmarshalMap` cannot store in a map. -/
def JSON.notForMap : JSON → Bool
  | JSON.bool _ => true
  | JSON.number _ => true
  | JSON.string _ => true
  | JSON.array _ => true
  | _ => false

/-- The value `v` is `t` itself or lies somewhere inside `t`. -/
inductive Within (v : Value) : Value → Prop
  | self : Within v v
  | slice (xs : List Value) (x : Value) : x ∈ xs → Within v x → Within v (Value.slice xs)
  | map (m : List (GoString × Value)) (k : GoString) (x : Value) :
      (k, x) ∈ m → Within v x → Within v (Value.map m)

/-- A scanner given by its answers on the listed texts; it answers `none`
elsewhere, so a concrete run lists the body it uses. -/
def tableScan (table : List (GoString × JSON)) (d : GoString) : Option JSON :=
  table.lookup d

/-- A world like `sampleWorld`, whose decoder is `unmarshalMap` after `scan`. -/
def jsonWorld (status : Int) (body : GoString) (scan : GoString → Option JSON)
    (find : JSONMap → GoString → Value × Option GoError) : World where
  NewRequest := fun m u b => Except.ok ⟨m, u, b⟩
  Do := fun _ => Except.ok ⟨status, Except.ok body⟩
  Unmarshal := fun d => unmarshalMap (scan d)
  Find := find

/-! ## strconv against the literals -/

theorem lower_div_128 (c : Nat) : lower c / 128 = c / 128 := by
  have h : ∀ x : Nat, x / 128 = x / 2 / 2 / 2 / 2 / 2 / 2 / 2 := by intro x; omega
  unfold lower
  rw [h, h c]
  simp [Nat.or_div_two]

theorem digitOf_small : ∀ c, c < 128 → digitOf c = charDigit c := by
  unfold digitOf charDigit lower
  decide

theorem digitOf_eq_charDigit (c : Nat) : digitOf c = charDigit c := by
  by_cases hc : c < 128
  · exact digitOf_small c hc
  · have h1 : lower c / 128 = c / 128 := lower_div_128 c
    have h2 : 128 ≤ lower c := by omega
    unfold digitOf charDigit
    have a1 : ¬ (48 ≤ c ∧ c ≤ 57) := by omega
    have a2 : ¬ (97 ≤ lower c ∧ lower c ≤ 122) := by omega
    have a3 : ¬ (97 ≤ c ∧ c ≤ 122) := by omega
    have a4 : ¬ (65 ≤ c ∧ c ≤ 90) := by omega
    simp only [a1, a2, a3, a4, if_false]

/-- The unsigned cutoff and maximum of `ParseUint` for 64 bits. -/
theorem cutoff_le_iff (base n : Nat) (hb : 0 < base) :
    (2 ^ 64 - 1) / base + 1 ≤ n ↔ 2 ^ 64 ≤ n * base := by
  have h := @Nat.div_lt_iff_lt_mul base (2 ^ 64 - 1) n hb
  constructor
  · intro h1
    have h2 : (2 ^ 64 - 1) / base < n := by omega
    have h3 := h.mp h2
    omega
  · intro h1
    have h2 : 2 ^ 64 - 1 < n * base := by omega
    have h3 := h.mpr h2
    omega

theorem parseUintLoop_bad_digit (base maxVal cutoff c : Nat) (cs : GoString) (n : Nat)
    (hb : base ≤ 36)
    (h : charDigit c = none ∨ ∃ d, charDigit c = some d ∧ base ≤ d) :
    parseUintLoop base maxVal cutoff (c :: cs) n = (0, some ErrKind.ErrSyntax) := by
  have hm : base % 256 = base := Nat.mod_eq_of_lt (by omega)
  rcases h with h | ⟨d, h, hd⟩
  · simp only [parseUintLoop, digitOf_eq_charDigit, h]
  · simp only [parseUintLoop, digitOf_eq_charDigit, h, hm, hd, if_true]

theorem parseUintLoop_cons (base c : Nat) (cs : GoString) (n d : Nat)
    (hb1 : 2 ≤ base) (hb2 : base ≤ 36)
    (hd : charDigit c = some d) (hdb : d < base) :
    parseUintLoop base (2 ^ 64 - 1) ((2 ^ 64 - 1) / base + 1) (c :: cs) n =
      if n * base + d < 2 ^ 64 then
        parseUintLoop base (2 ^ 64 - 1) ((2 ^ 64 - 1) / base + 1) cs (n * base + d)
      else (2 ^ 64 - 1, some ErrKind.ErrRange) := by
  have hm : base % 256 = base := Nat.mod_eq_of_lt (by omega)
  have hc := cutoff_le_iff base n (by omega)
  have hnd : ¬ base ≤ d := by omega
  simp only [parseUintLoop, digitOf_eq_charDigit, hd, hm, hnd, if_false]
  by_cases h1 : (2 ^ 64 - 1) / base + 1 ≤ n
  · have h2 := hc.mp h1
    have h3 : ¬ n * base + d < 2 ^ 64 := by omega
    simp only [h1, h3, if_true, if_false]
  · have h2 : n * base < 2 ^ 64 := by
      by_contra hcon
      exact h1 (hc.mpr (by omega))
    have e1 : n * base % 2 ^ 64 = n * base := Nat.mod_eq_of_lt h2
    simp only [h1, if_false, e1]
    by_cases h3 : n * base + d < 2 ^ 64
    · have e2 : (n * base + d) % 2 ^ 64 = n * base + d := Nat.mod_eq_of_lt h3
      have h4 : ¬ (n * base + d < n * base ∨ 2 ^ 64 - 1 < n * base + d) := by omega
      simp only [e2, h3, h4, if_true, if_false]
    · have h4 : (n * base + d) % 2 ^ 64 < n * base ∨ 2 ^ 64 - 1 < (n * base + d) % 2 ^ 64 := by
        left
        omega
      simp only [h3, h4, if_true, if_false]

theorem digitsAcc_ge (base : Nat) (hb : 1 ≤ base) :
    ∀ (cs : GoString) (n v : Nat), digitsAcc base cs n = some v → n ≤ v := by
  intro cs
  induction cs with
  | nil =>
    intro n v h
    simp only [digitsAcc, Option.some.injEq] at h
    omega
  | cons c cs ih =>
    intro n v h
    unfold digitsAcc at h
    cases hc : charDigit c with
    | none => simp [hc] at h
    | some d =>
      simp only [hc] at h
      by_cases hd : d < base
      · simp only [hd, if_true] at h
        have h1 := ih _ _ h
        have h2 : n * 1 ≤ n * base := Nat.mul_le_mul_left n hb
        omega
      · simp [hd] at h

/-- The digit loop of `ParseUint` returns the positional value when it fits 64
bits, reports a range error when it does not, and fails one way or the other
when a byte is not a digit of the base. -/
theorem parseUintLoop_spec (base : Nat) (hb1 : 2 ≤ base) (hb2 : base ≤ 36) :
    ∀ (cs : GoString) (n : Nat), n < 2 ^ 64 →
      (∀ v, digitsAcc base cs n = some v →
        parseUintLoop base (2 ^ 64 - 1) ((2 ^ 64 - 1) / base + 1) cs n =
          if v < 2 ^ 64 then (v, none) else (2 ^ 64 - 1, some ErrKind.ErrRange)) ∧
      (digitsAcc base cs n = none →
        parseUintLoop base (2 ^ 64 - 1) ((2 ^ 64 - 1) / base + 1) cs n
            = (0, some ErrKind.ErrSyntax) ∨
        parseUintLoop base (2 ^ 64 - 1) ((2 ^ 64 - 1) / base + 1) cs n
            = (2 ^ 64 - 1, some ErrKind.ErrRange)) := by
  intro cs
  induction cs with
  | nil =>
    intro n hn
    constructor
    · intro v hv
      simp only [digitsAcc, Option.some.injEq] at hv
      subst hv
      rw [if_pos hn]
      rfl
    · intro h
      simp [digitsAcc] at h
  | cons c cs ih =>
    intro n hn
    cases hc : charDigit c with
    | none =>
      have hbad := parseUintLoop_bad_digit base (2 ^ 64 - 1) ((2 ^ 64 - 1) / base + 1) c cs n
        hb2 (Or.inl hc)
      have hda : digitsAcc base (c :: cs) n = none := by simp [digitsAcc, hc]
      constructor
      · intro v hv
        rw [hda] at hv
        cases hv
      · intro _
        exact Or.inl hbad
    | some d =>
      by_cases hd : d < base
      · have hstep := parseUintLoop_cons base c cs n d hb1 hb2 hc hd
        have hda : digitsAcc base (c :: cs) n = digitsAcc base cs (n * base + d) := by
          simp [digitsAcc, hc, hd]
        rw [hda, hstep]
        by_cases hfit : n * base + d < 2 ^ 64
        · rw [if_pos hfit]
          exact ih _ hfit
        · rw [if_neg hfit]
          constructor
          · intro v hv
            have hge := digitsAcc_ge base (by omega) cs _ _ hv
            have hnv : ¬ v < 2 ^ 64 := by omega
            rw [if_neg hnv]
          · intro _
            exact Or.inr rfl
      · have hbad := parseUintLoop_bad_digit base (2 ^ 64 - 1) ((2 ^ 64 - 1) / base + 1) c cs n
          hb2 (Or.inr ⟨d, hc, by omega⟩)
        have hda : digitsAcc base (c :: cs) n = none := by simp [digitsAcc, hc, hd]
        constructor
        · intro v hv
          rw [hda] at hv
          cases hv
        · intro _
          exact Or.inl hbad

/-- Go `ParseUint` with 64 bits, by the literal it reads. -/
theorem ParseUint_spec (base : Nat) (hb1 : 2 ≤ base) (hb2 : base ≤ 36) (s : GoString) :
    (∀ v, natLiteral base s = some v → v < 2 ^ 64 → ParseUint s base 64 = (v, none)) ∧
    (∀ v, natLiteral base s = some v → 2 ^ 64 ≤ v →
      ParseUint s base 64 = (2 ^ 64 - 1, some ⟨"ParseUint", s, ErrKind.ErrRange⟩)) ∧
    (natLiteral base s = none →
      ParseUint s base 64 = (0, some ⟨"ParseUint", s, ErrKind.ErrSyntax⟩) ∨
      ParseUint s base 64 = (2 ^ 64 - 1, some ⟨"ParseUint", s, ErrKind.ErrRange⟩)) := by
  by_cases hs : s = []
  · subst hs
    refine ⟨?_, ?_, ?_⟩
    · intro v hv; simp [natLiteral] at hv
    · intro v hv; simp [natLiteral] at hv
    · intro _; left; simp [ParseUint]
  · have hbase : ¬ ¬ (2 ≤ base ∧ base ≤ 36) := by omega
    have hP : ParseUint s base 64 =
        (match parseUintLoop base (2 ^ 64 - 1) ((2 ^ 64 - 1) / base + 1) s 0 with
         | (n, none) => (n, none)
         | (n, some k) => (n, some ⟨"ParseUint", s, k⟩)) := by
      unfold ParseUint
      rw [if_neg hs, if_neg hbase]
      simp
    have hL : natLiteral base s = digitsAcc base s 0 := by simp [natLiteral, hs]
    have hloop := parseUintLoop_spec base hb1 hb2 s 0 (by norm_num)
    rw [hP, hL]
    refine ⟨?_, ?_, ?_⟩
    · intro v hv hlt
      rw [hloop.1 v hv, if_pos hlt]
    · intro v hv hge
      have hnv : ¬ v < 2 ^ 64 := by omega
      rw [hloop.1 v hv, if_neg hnv]
    · intro hv
      rcases hloop.2 hv with h | h
      · left; rw [h]
      · right; rw [h]

theorem ParseInt_of_uint (c : Nat) (rest : GoString) (base un : Nat) (err : Option NumError)
    (h : ParseUint (if c = 43 then rest else if c = 45 then rest else c :: rest) base 64
      = (un, err))
    (he : ∀ e, err = some e → e.Err = ErrKind.ErrRange) :
    ParseInt (c :: rest) base 64 =
      if (decide (c ≠ 43) && decide (c = 45)) = false ∧ 2 ^ 63 ≤ un then
        (Int.ofNat (2 ^ 63 - 1), some ⟨"ParseInt", c :: rest, ErrKind.ErrRange⟩)
      else if (decide (c ≠ 43) && decide (c = 45)) = true ∧ 2 ^ 63 < un then
        (- Int.ofNat (2 ^ 63), some ⟨"ParseInt", c :: rest, ErrKind.ErrRange⟩)
      else
        (if (decide (c ≠ 43) && decide (c = 45)) then int64 (- int64 (Int.ofNat un))
          else int64 (Int.ofNat un), none) := by
  have hf : err.filter (fun e => decide (e.Err ≠ ErrKind.ErrRange)) = none := by
    cases err with
    | none => rfl
    | some e => simp [Option.filter, he e rfl]
  simp only [ParseInt, h, hf]
  rfl

theorem ParseInt_of_uint_syntax (c : Nat) (rest : GoString) (base un : Nat) (e : NumError)
    (h : ParseUint (if c = 43 then rest else if c = 45 then rest else c :: rest) base 64
      = (un, some e))
    (he : e.Err ≠ ErrKind.ErrRange) :
    ParseInt (c :: rest) base 64 = (0, some ⟨"ParseInt", c :: rest, e.Err⟩) := by
  have hf : (some e).filter (fun e => decide (e.Err ≠ ErrKind.ErrRange)) = some e := by
    simp [Option.filter, he]
  simp only [ParseInt, h, hf]

theorem intLiteral_cons (base c : Nat) (rest : GoString) :
    intLiteral base (c :: rest) =
      (natLiteral base (if c = 43 then rest else if c = 45 then rest else c :: rest)).map
        (fun v => if (decide (c ≠ 43) && decide (c = 45)) = true
          then - Int.ofNat v else Int.ofNat v) := by
  unfold intLiteral
  by_cases h1 : c = 43
  · subst h1; simp; rfl
  · by_cases h2 : c = 45
    · subst h2; simp
    · simp [h1, h2]; rfl

theorem int64_of_small (u : Nat) (h : u < 2 ^ 63) : int64 (Int.ofNat u) = Int.ofNat u := by
  unfold int64
  simp only [Int.ofNat_eq_coe]
  omega

theorem int64_neg_of_le (u : Nat) (h : u ≤ 2 ^ 63) :
    int64 (- int64 (Int.ofNat u)) = - Int.ofNat u := by
  unfold int64
  simp only [Int.ofNat_eq_coe]
  omega

theorem ParseInt_spec (base : Nat) (hb1 : 2 ≤ base) (hb2 : base ≤ 36) (s : GoString) :
    (∀ v, int64Literal base s = some v → ParseInt s base 64 = (v, none)) ∧
    (int64Literal base s = none → ∃ x e, ParseInt s base 64 = (x, some e)) := by
  cases s with
  | nil => simp [int64Literal, intLiteral, ParseInt]
  | cons c rest =>
    have hU := ParseUint_spec base hb1 hb2
      (if c = 43 then rest else if c = 45 then rest else c :: rest)
    have hI := intLiteral_cons base c rest
    unfold int64Literal
    rw [hI]
    cases hL : natLiteral base (if c = 43 then rest else if c = 45 then rest else c :: rest) with
    | none =>
      constructor
      · intro v hv
        simp at hv
      · intro _
        rcases hU.2.2 hL with h | h
        · exact ⟨_, _, ParseInt_of_uint_syntax c rest base _ _ h (by simp)⟩
        · have h2 := ParseInt_of_uint c rest base _ _ h (by intro e he; cases he; rfl)
          cases hn : (decide (c ≠ 43) && decide (c = 45)) with
          | false =>
            rw [hn] at h2
            simp at h2
            exact ⟨_, _, h2⟩
          | true =>
            rw [hn] at h2
            simp at h2
            exact ⟨_, _, h2⟩
    | some u =>
      by_cases hu : u < 2 ^ 64
      · have h := hU.1 u hL hu
        have h2 := ParseInt_of_uint c rest base _ _ h (by intro e he; cases he)
        cases hn : (decide (c ≠ 43) && decide (c = 45)) with
        | false =>
          rw [hn] at h2
          by_cases hr : 2 ^ 63 ≤ u
          · rw [if_pos ⟨rfl, hr⟩] at h2
            constructor
            · intro v hv
              simp [Option.filter] at hv
              omega
            · intro _
              exact ⟨_, _, h2⟩
          · rw [if_neg (fun hh => hr hh.2), if_neg (fun hh => Bool.noConfusion hh.1),
              if_neg (fun hh => Bool.noConfusion hh), int64_of_small u (by omega)] at h2
            constructor
            · intro v hv
              simp [Option.filter] at hv
              rw [h2, ← hv.2]
              rfl
            · intro hv
              simp [Option.filter] at hv
              omega
        | true =>
          rw [hn] at h2
          by_cases hr : 2 ^ 63 < u
          · rw [if_neg (fun hh => Bool.noConfusion hh.1), if_pos ⟨rfl, hr⟩] at h2
            constructor
            · intro v hv
              simp [Option.filter] at hv
              omega
            · intro _
              exact ⟨_, _, h2⟩
          · rw [if_neg (fun hh => Bool.noConfusion hh.1), if_neg (fun hh => hr hh.2),
              if_pos rfl, int64_neg_of_le u (by omega)] at h2
            constructor
            · intro v hv
              simp [Option.filter] at hv
              rw [h2, ← hv.2]
              rfl
            · intro hv
              simp [Option.filter] at hv
              omega
      · have h := hU.2.1 u hL (by omega)
        have h2 := ParseInt_of_uint c rest base _ _ h (by intro e he; cases he; rfl)
        cases hn : (decide (c ≠ 43) && decide (c = 45)) with
        | false =>
          rw [hn] at h2
          simp at h2
          constructor
          · intro v hv
            simp [Option.filter] at hv
            omega
          · intro _
            exact ⟨_, _, h2⟩
        | true =>
          rw [hn] at h2
          simp at h2
          constructor
          · intro v hv
            simp [Option.filter] at hv
            omega
          · intro _
            exact ⟨_, _, h2⟩

/-! ## convertToFloat on strings -/

theorem trimLeftASCII_0x (s : GoString) : trimLeftASCII s [48, 120] = dropLeading0x s := by
  induction s with
  | nil => rfl
  | cons c cs ih =>
    unfold trimLeftASCII dropLeading0x
    by_cases h : c = 48 ∨ c = 120
    · have hc : [48, 120].contains c = true := by
        rcases h with h | h <;> subst h <;> decide
      rw [if_pos hc, ih, List.dropWhile_cons_of_pos (by simpa using h)]
      rfl
    · have hc : ¬ ([48, 120].contains c = true) := by
        intro hh
        simp at hh
        exact h hh
      rw [if_neg hc, List.dropWhile_cons_of_neg (by simpa using h)]

/-- Go `strings.TrimLeft(s, "0x")` removes every leading `0` and `x`. -/
theorem TrimLeft_0x (s : GoString) : TrimLeft s (ascii "0x") = dropLeading0x s := by
  have ha : ascii "0x" = [48, 120] := by decide
  rw [ha]
  unfold TrimLeft
  by_cases hs : s = []
  · subst hs
    rfl
  · have h : ¬ (s = [] ∨ ([48, 120] : GoString) = []) := by
      intro hh
      rcases hh with hh | hh
      · exact hs hh
      · cases hh
    rw [if_neg h]
    exact trimLeftASCII_0x s

theorem convertToFloat_prefixed (s : GoString) (h : HasPrefix s (ascii "0x") = true) :
    convertToFloat (Value.str s) =
      match ParseInt (dropLeading0x s) 16 64 with
      | (_, some err) => Outcome.ret (0, some (GoError.num err))
      | (outInt, none) => Outcome.ret (float64 outInt, none) := by
  simp only [convertToFloat, typeKind, h, if_true, TrimLeft_0x]

theorem convertToFloat_plain (s : GoString) (h : HasPrefix s (ascii "0x") = false) :
    convertToFloat (Value.str s) =
      match ParseInt s 10 64 with
      | (outValue, none) => Outcome.ret (float64 outValue, none)
      | (_, some _) =>
        match ParseInt s 16 64 with
        | (_, some err) => Outcome.ret (0, some (GoError.num err))
        | (outValue, none) => Outcome.ret (float64 outValue, none) := by
  simp only [convertToFloat, typeKind, h, Bool.false_eq_true, if_false]

/-! ## Claims about convertToFloat -/

/-- C3 (the code departs from the claim): `convertToFloat` applied to the untyped
nil value does not return `0.0` with no error; `reflect.TypeOf(nil)` is the nil
type and asking it for its kind panics. -/
theorem C3_nil_value_panics : convertToFloat Value.nil = Outcome.panic nilDeref := rfl

/-- C6 (the code departs from the claim at `n = 0`): the base-16 rendering of 0
is `"0"`, and `convertToFloat "0x0"` returns a syntax error, because trimming
every leading `0` and `x` leaves the empty string for `ParseInt`. -/
theorem C6_hex_zero_is_rejected :
    hexString 0 = ascii "0" ∧
    convertToFloat (Value.str (ascii "0x" ++ hexString 0)) =
      Outcome.ret (0, some (GoError.num ⟨"ParseInt", [], ErrKind.ErrSyntax⟩)) := by
  decide

/-- C7: for a string that begins with `0x`, `convertToFloat` parses, as a signed
64-bit base-16 integer, the string with every leading `0` and `x` removed.  When
that is a valid literal its value is returned as a float with no error; when it
is not, the error of that one parse is returned with value `0.0`. -/
theorem C7_prefixed_parses_trimmed (s : GoString) (h : HasPrefix s (ascii "0x") = true) :
    (∀ v, int64Literal 16 (dropLeading0x s) = some v →
      convertToFloat (Value.str s) = Outcome.ret (float64 v, none)) ∧
    (int64Literal 16 (dropLeading0x s) = none →
      ∃ x e, ParseInt (dropLeading0x s) 16 64 = (x, some e) ∧
        convertToFloat (Value.str s) = Outcome.ret (0, some (GoError.num e))) := by
  have hP := ParseInt_spec 16 (by decide) (by decide) (dropLeading0x s)
  have hC := convertToFloat_prefixed s h
  constructor
  · intro v hv
    rw [hC, hP.1 v hv]
  · intro hv
    obtain ⟨x, e, he⟩ := hP.2 hv
    refine ⟨x, e, he, ?_⟩
    rw [hC, he]

theorem C7_prefixed_parses_trimmed_witness :
    HasPrefix (ascii "0x1A") (ascii "0x") = true ∧
    convertToFloat (Value.str (ascii "0x1A")) = Outcome.ret (float64 26, none) :=
  ⟨by decide, (C7_prefixed_parses_trimmed (ascii "0x1A") (by decide)).1 26 (by decide)⟩

/-- C8: a string that does not begin with `0x` and is a valid base-10 signed
64-bit literal is converted to its base-10 value, with no error, whether or not
it is a valid base-16 literal too. -/
theorem C8_decimal_first (s : GoString) (v : Int)
    (hp : HasPrefix s (ascii "0x") = false) (hv : int64Literal 10 s = some v) :
    convertToFloat (Value.str s) = Outcome.ret (float64 v, none) := by
  have hP := ParseInt_spec 10 (by decide) (by decide) s
  rw [convertToFloat_plain s hp, hP.1 v hv]

theorem C8_decimal_first_witness :
    (HasPrefix (ascii "42") (ascii "0x") = false ∧ int64Literal 10 (ascii "42") = some 42 ∧
      int64Literal 16 (ascii "42") = some 66) ∧
    convertToFloat (Value.str (ascii "42")) = Outcome.ret (float64 42, none) :=
  ⟨by decide, C8_decimal_first (ascii "42") 42 (by decide) (by decide)⟩

/-- C9: a string that does not begin with `0x`, is not a valid base-10 signed
64-bit literal and is a valid base-16 one is converted to its base-16 value, with
no error. -/
theorem C9_hex_fallback (s : GoString) (v : Int)
    (hp : HasPrefix s (ascii "0x") = false) (h10 : int64Literal 10 s = none)
    (h16 : int64Literal 16 s = some v) :
    convertToFloat (Value.str s) = Outcome.ret (float64 v, none) := by
  have hD := ParseInt_spec 10 (by decide) (by decide) s
  have hH := ParseInt_spec 16 (by decide) (by decide) s
  obtain ⟨x, e, he⟩ := hD.2 h10
  rw [convertToFloat_plain s hp, he, hH.1 v h16]

theorem C9_hex_fallback_witness :
    (HasPrefix (ascii "1A") (ascii "0x") = false ∧ int64Literal 10 (ascii "1A") = none ∧
      int64Literal 16 (ascii "1A") = some 26) ∧
    convertToFloat (Value.str (ascii "1A")) = Outcome.ret (float64 26, none) :=
  ⟨by decide, C9_hex_fallback (ascii "1A") 26 (by decide) (by decide) (by decide)⟩

/-- C10: for a string that does not begin with `0x`, `convertToFloat` returns an
error exactly when the string is neither a valid base-10 nor a valid base-16
signed 64-bit literal. -/
theorem C10_error_iff_no_literal (s : GoString) (hp : HasPrefix s (ascii "0x") = false) :
    (∃ x e, convertToFloat (Value.str s) = Outcome.ret (x, some e)) ↔
      (int64Literal 10 s = none ∧ int64Literal 16 s = none) := by
  have hD := ParseInt_spec 10 (by decide) (by decide) s
  have hH := ParseInt_spec 16 (by decide) (by decide) s
  have hC := convertToFloat_plain s hp
  constructor
  · rintro ⟨x, e, hxe⟩
    cases h10 : int64Literal 10 s with
    | some v =>
      rw [hC, hD.1 v h10] at hxe
      simp at hxe
    | none =>
      refine ⟨rfl, ?_⟩
      cases h16 : int64Literal 16 s with
      | some v =>
        obtain ⟨y, e1, he1⟩ := hD.2 h10
        rw [hC, he1, hH.1 v h16] at hxe
        simp at hxe
      | none => rfl
  · rintro ⟨h10, h16⟩
    obtain ⟨y, e1, he1⟩ := hD.2 h10
    obtain ⟨z, e2, he2⟩ := hH.2 h16
    exact ⟨0, GoError.num e2, by rw [hC, he1, he2]⟩

theorem C10_error_iff_no_literal_witness :
    (HasPrefix (ascii "not-a-number") (ascii "0x") = false ∧
      ∃ x e, convertToFloat (Value.str (ascii "not-a-number")) = Outcome.ret (x, some e)) ∧
    (HasPrefix (ascii "") (ascii "0x") = false ∧
      ∃ x e, convertToFloat (Value.str (ascii "")) = Outcome.ret (x, some e)) :=
  ⟨⟨by decide, (C10_error_iff_no_literal (ascii "not-a-number") (by decide)).mpr
      ⟨by decide, by decide⟩⟩,
   ⟨by decide, (C10_error_iff_no_literal (ascii "") (by decide)).mpr ⟨by decide, by decide⟩⟩⟩

/-! ## Claims about Fetch -/

/-- C1 (the code departs from the claim): the request succeeds with status OK, the
body `{"a":null}` decodes and the one configured field locates the null; `Fetch`
returns no one-entry sequence, it panics inside `convertToFloat`. -/
theorem C1_located_null_panics :
    Fetch (sampleWorld 200 (ascii "\x7b\"a\":null\x7d") [(ascii "a", Value.nil)] keySelector)
      (sampleConfig [⟨ascii "a", ascii "height"⟩]) = Outcome.panic nilDeref := by
  decide

/-- C2 (the code departs from the claim): the selector reports not-found for the
one configured field.  With a selector that returns nil next to the error `Fetch`
panics; with one that returns the empty string the record carries the error of
`convertToFloat`, not the not-found error of the selector. -/
theorem C2_not_found_error_is_dropped :
    keySelector [] (ascii "a") = (Value.nil, some (GoError.external "not found")) ∧
    Fetch (sampleWorld 200 (ascii "\x7b\x7d") [] keySelector)
      (sampleConfig [⟨ascii "a", ascii "height"⟩]) = Outcome.panic nilDeref ∧
    keySelectorEmpty [] (ascii "a") = (Value.str [], some (GoError.external "not found")) ∧
    Fetch (sampleWorld 200 (ascii "\x7b\x7d") [] keySelectorEmpty)
      (sampleConfig [⟨ascii "a", ascii "height"⟩]) =
      Outcome.ret (some [⟨ascii "a", ascii "height", 0,
        some (GoError.num ⟨"ParseInt", [], ErrKind.ErrSyntax⟩)⟩], none) := by
  refine ⟨rfl, ?_, rfl, ?_⟩ <;> decide

/-- C4: when the request is built and answered and the status code of the
response is not 200, `Fetch` returns the nil sequence and a non-nil error,
whatever the body and the fields are. -/
theorem C4_non_ok_status_is_fatal (w : World) (config : RPCFetchConfig) (req : Request)
    (resp : Response)
    (hreq : w.NewRequest config.Method config.URL
      (if config.Body ≠ [] then some config.Body else none) = Except.ok req)
    (hdo : w.Do req = Except.ok resp) (hst : resp.StatusCode ≠ 200) :
    Fetch w config = Outcome.ret (none, some (GoError.status resp.StatusCode)) := by
  unfold Fetch
  simp only [hreq, hdo, hst, if_true, ne_eq, not_false_eq_true]

theorem C4_non_ok_status_is_fatal_witness :
    Fetch (sampleWorld 201 (ascii "\x7b\"a\":\"12\"\x7d") [(ascii "a", Value.str (ascii "12"))]
        keySelector) (sampleConfig [⟨ascii "a", ascii "height"⟩]) =
      Outcome.ret (none, some (GoError.status 201)) :=
  C4_non_ok_status_is_fatal
    (sampleWorld 201 (ascii "\x7b\"a\":\"12\"\x7d") [(ascii "a", Value.str (ascii "12"))]
      keySelector)
    (sampleConfig [⟨ascii "a", ascii "height"⟩])
    ⟨ascii "GET", ascii "http://localhost/status", none⟩
    ⟨201, Except.ok (ascii "\x7b\"a\":\"12\"\x7d")⟩ rfl rfl (by decide)

/-- C5 (the code departs from the claim): status OK, the body
`{"a":null,"b":"7"}` decodes to an object; the first field locates the null and
the call panics, so the second field, which would convert to 7, is never
processed and no result sequence is returned. -/
theorem C5_null_field_aborts_call :
    convertToFloat (Value.str (ascii "7")) = Outcome.ret (7, none) ∧
    Fetch (sampleWorld 200 (ascii "\x7b\"a\":null,\"b\":\"7\"\x7d")
        [(ascii "a", Value.nil), (ascii "b", Value.str (ascii "7"))] keySelector)
      (sampleConfig [⟨ascii "a", ascii "height"⟩, ⟨ascii "b", ascii "peers"⟩]) =
      Outcome.panic nilDeref := by
  refine ⟨?_, ?_⟩ <;> decide

/-! ## Fetch when no located value is nil -/

theorem convertToFloat_of_ne_nil (v : Value) (h : v ≠ Value.nil) :
    convertToFloat v = Outcome.ret (returned v) := by
  have key : ∀ p, convertToFloat v = Outcome.ret p → convertToFloat v = Outcome.ret (returned v) := by
    intro p hp
    unfold returned
    rw [hp]
  cases v with
  | nil => exact absurd rfl h
  | str s =>
    cases hp : HasPrefix s (ascii "0x") with
    | true =>
      rcases hP : ParseInt (dropLeading0x s) 16 64 with ⟨x, _ | e⟩
      · exact key _ (by rw [convertToFloat_prefixed s hp, hP])
      · exact key _ (by rw [convertToFloat_prefixed s hp, hP])
    | false =>
      rcases hD : ParseInt s 10 64 with ⟨x, _ | e⟩
      · exact key _ (by rw [convertToFloat_plain s hp, hD])
      · rcases hH : ParseInt s 16 64 with ⟨y, _ | e2⟩
        · exact key _ (by rw [convertToFloat_plain s hp, hD, hH])
        · exact key _ (by rw [convertToFloat_plain s hp, hD, hH])
  | int n => exact key _ rfl
  | bool b => exact key _ rfl
  | float b => exact key _ rfl
  | map m => exact key _ rfl
  | slice xs => exact key _ rfl

theorem set_length_append (pre : List ResultConvert) (j r : ResultConvert)
    (junk : List ResultConvert) :
    (pre ++ j :: junk).set pre.length r = pre ++ r :: junk := by
  induction pre with
  | nil => rfl
  | cons a pre ih => simp [List.set, ih]

/-- The loop of `Fetch` overwrites the slots `i`, `i+1`, ... with the records of
the fields, in order, when no located value is nil. -/
theorem fetchLoop_of_no_nil (w : World) (mapData : JSONMap) :
    ∀ (fields : List Field) (pre junk : List ResultConvert),
      junk.length = fields.length →
      (∀ f ∈ fields, (w.Find mapData f.Selector).1 ≠ Value.nil) →
      fetchLoop w mapData fields pre.length (pre ++ junk) =
        Outcome.ret (pre ++ fields.map (fieldRecord w mapData)) := by
  intro fields
  induction fields with
  | nil =>
    intro pre junk hlen _
    have : junk = [] := List.length_eq_zero.mp hlen
    subst this
    rfl
  | cons f fs ih =>
    intro pre junk hlen hnil
    cases junk with
    | nil => simp at hlen
    | cons j junk =>
      have hv := convertToFloat_of_ne_nil _ (hnil f (List.mem_cons_self f fs))
      have hstep : fetchLoop w mapData (f :: fs) pre.length (pre ++ j :: junk) =
          fetchLoop w mapData fs (pre.length + 1)
            ((pre ++ j :: junk).set pre.length (fieldRecord w mapData f)) := by
        simp only [fetchLoop, hv]
        rfl
      rw [hstep, set_length_append]
      have h2 := ih (pre ++ [fieldRecord w mapData f]) junk (by simpa using hlen)
        (fun g hg => hnil g (List.mem_cons_of_mem f hg))
      simpa using h2

/-- When the request succeeds with status OK, the body decodes and no selector
returns a nil value, `Fetch` returns a nil error and one record per field, in
the order of the fields. -/
theorem Fetch_of_no_nil (w : World) (config : RPCFetchConfig) (req : Request) (resp : Response)
    (d : GoString) (mapData : JSONMap)
    (hreq : w.NewRequest config.Method config.URL
      (if config.Body ≠ [] then some config.Body else none) = Except.ok req)
    (hdo : w.Do req = Except.ok resp) (hst : resp.StatusCode = 200)
    (hbody : resp.Body = Except.ok d) (hjson : w.Unmarshal d = Except.ok mapData)
    (hnil : ∀ f ∈ config.Fields, (w.Find mapData f.Selector).1 ≠ Value.nil) :
    Fetch w config = Outcome.ret (some (config.Fields.map (fieldRecord w mapData)), none) := by
  have hloop := fetchLoop_of_no_nil w mapData config.Fields []
    (List.replicate config.Fields.length zeroResult) (by simp) hnil
  simp only [List.length_nil, List.nil_append] at hloop
  unfold Fetch
  simp only [hreq, hdo, hst, hbody, hjson, hloop, ne_eq, not_true_eq_false, if_false]

/-! ## The prefixed round trip away from zero -/

theorem charDigit_digitChar : ∀ k, k < 16 → charDigit (Nat.digitChar k).toNat = some k := by
  decide

theorem digitsAcc_append (base : Nat) :
    ∀ (xs ys : GoString) (a : Nat),
      digitsAcc base (xs ++ ys) a = (digitsAcc base xs a).bind (digitsAcc base ys) := by
  intro xs
  induction xs with
  | nil => intro ys a; rfl
  | cons c cs ih =>
    intro ys a
    simp only [List.cons_append, digitsAcc]
    cases charDigit c with
    | none => rfl
    | some d =>
      by_cases hd : d < base
      · simp only [hd, if_true]
        exact ih ys _
      · simp only [hd, if_false]
        rfl

/-- The digits that `Nat.toDigitsCore` puts in front of `ds` read back as `n`. -/
theorem toDigitsCore_value :
    ∀ (fuel n : Nat) (ds : List Char), n < fuel →
      ∃ L : List Char, Nat.toDigitsCore 16 fuel n ds = L ++ ds ∧
        ∀ a, digitsAcc 16 (L.map Char.toNat) a = some (a * 16 ^ L.length + n) := by
  intro fuel
  induction fuel with
  | zero => intro n ds h; omega
  | succ fuel ih =>
    intro n ds hn
    have hd := charDigit_digitChar (n % 16) (Nat.mod_lt n (by decide))
    unfold Nat.toDigitsCore
    by_cases h0 : n / 16 = 0
    · refine ⟨[Nat.digitChar (n % 16)], ?_, ?_⟩
      · simp [h0]
      · intro a
        have hlt : n % 16 < 16 := Nat.mod_lt n (by decide)
        simp only [List.map_cons, List.map_nil, digitsAcc, hd, hlt, if_true, List.length_singleton,
          pow_one]
        congr 1
        omega
    · have hlt : n / 16 < fuel := by omega
      obtain ⟨L, hL, hval⟩ := ih (n / 16) (Nat.digitChar (n % 16) :: ds) hlt
      refine ⟨L ++ [Nat.digitChar (n % 16)], ?_, ?_⟩
      · simp [h0, hL]
      · intro a
        have hlt2 : n % 16 < 16 := Nat.mod_lt n (by decide)
        rw [List.map_append, digitsAcc_append, hval a]
        simp only [Option.some_bind, List.map_cons, List.map_nil, digitsAcc, hd, hlt2, if_true,
          List.length_append, List.length_singleton]
        congr 1
        rw [pow_succ]
        have := Nat.div_add_mod n 16
        nlinarith [Nat.div_add_mod n 16]

theorem hexString_value (n : Nat) : digitsAcc 16 (hexString n) 0 = some n := by
  obtain ⟨L, hL, hval⟩ := toDigitsCore_value (n + 1) n [] (by omega)
  unfold hexString Nat.toDigits
  rw [hL, List.append_nil, hval 0]
  simp

/-- Removing the leading `0` and `x` bytes of a run of base-16 digits keeps its
value, and leaves something when the value is not zero. -/
theorem dropLeading0x_value :
    ∀ (L : GoString) (n : Nat), digitsAcc 16 L 0 = some n →
      digitsAcc 16 (dropLeading0x L) 0 = some n ∧ (0 < n → dropLeading0x L ≠ []) := by
  intro L
  induction L with
  | nil =>
    intro n h
    simp only [digitsAcc, Option.some.injEq] at h
    exact ⟨by simp [dropLeading0x, digitsAcc, h], fun hp => by omega⟩
  | cons c cs ih =>
    intro n h
    by_cases h48 : c = 48
    · subst h48
      have h1 : digitsAcc 16 (48 :: cs) 0 = digitsAcc 16 cs 0 := by
        simp [digitsAcc, charDigit]
      have h2 : dropLeading0x (48 :: cs) = dropLeading0x cs := by
        simp [dropLeading0x]
      rw [h2]
      exact ih n (by rw [← h1]; exact h)
    · by_cases h120 : c = 120
      · subst h120
        simp [digitsAcc, charDigit] at h
      · have h2 : dropLeading0x (c :: cs) = c :: cs := by
          simp [dropLeading0x, h48, h120]
        rw [h2]
        exact ⟨h, fun _ => by simp⟩

/-- A run of base-16 digits with a value in `(0, 2^63)`, written after `0x`, is
converted to that value with no error. -/
theorem convertToFloat_0x_digits (L : GoString) (n : Nat) (hL : digitsAcc 16 L 0 = some n)
    (hpos : 0 < n) (hlt : n < 2 ^ 63) :
    convertToFloat (Value.str (ascii "0x" ++ L)) = Outcome.ret (float64 (Int.ofNat n), none) := by
  have ha : ascii "0x" = [48, 120] := by decide
  have hp : HasPrefix (ascii "0x" ++ L) (ascii "0x") = true := by
    rw [ha]
    simp [HasPrefix]
  have hdrop : dropLeading0x (ascii "0x" ++ L) = dropLeading0x L := by
    rw [ha]
    simp [dropLeading0x]
  obtain ⟨hval, hne⟩ := dropLeading0x_value L n hL
  have hlit : int64Literal 16 (dropLeading0x L) = some (Int.ofNat n) := by
    cases hT : dropLeading0x L with
    | nil => exact absurd hT (hne hpos)
    | cons c rest =>
      rw [hT] at hval
      have hc43 : c ≠ 43 := by
        intro hc
        subst hc
        simp [digitsAcc, charDigit] at hval
      have hc45 : c ≠ 45 := by
        intro hc
        subst hc
        simp [digitsAcc, charDigit] at hval
      have hnat : natLiteral 16 (c :: rest) = some n := by
        simp [natLiteral, hval]
      simp only [int64Literal, intLiteral, hc43, hc45, if_false, hnat, Option.map_some']
      have hr : decide (-(2 : Int) ^ 63 ≤ Int.ofNat n ∧ Int.ofNat n ≤ 2 ^ 63 - 1) = true := by
        simp only [Int.ofNat_eq_coe, decide_eq_true_eq]
        omega
      simp only [Option.filter, hr, if_true]
  have h7 := (ParseInt_spec 16 (by decide) (by decide) (dropLeading0x L)).1 _ hlit
  rw [convertToFloat_prefixed _ hp, hdrop, h7]

/-- For `n` in `(0, 2^63)`, `"0x"` followed by the base-16 rendering of `n` is
converted to `float64(n)` with no error. -/
theorem convertToFloat_0x_hexString (n : Nat) (hpos : 0 < n) (hlt : n < 2 ^ 63) :
    convertToFloat (Value.str (ascii "0x" ++ hexString n)) =
      Outcome.ret (float64 (Int.ofNat n), none) :=
  convertToFloat_0x_digits (hexString n) n (hexString_value n) hpos hlt

/-! ## Kinds other than string -/

/-- C11: for a floating-point number, an object and an array `convertToFloat`
returns `0.0` with no error; a decoded `3.14` (bit pattern `0x40091EB851EB851F`)
is not returned as it is, it gives `0.0`. -/
theorem C11_float_map_slice_give_zero :
    (∀ bits, convertToFloat (Value.float bits) = Outcome.ret (0, none)) ∧
    (∀ m, convertToFloat (Value.map m) = Outcome.ret (0, none)) ∧
    (∀ xs, convertToFloat (Value.slice xs) = Outcome.ret (0, none)) ∧
    convertToFloat (Value.float 0x40091EB851EB851F) = Outcome.ret (0, none) :=
  ⟨fun _ => rfl, fun _ => rfl, fun _ => rfl, rfl⟩

/-- C12: on a boolean `convertToFloat` returns no error, `1.0` for `true` and
`0.0` for `false`. -/
theorem C12_bool_values :
    convertToFloat (Value.bool true) = Outcome.ret (1, none) ∧
    convertToFloat (Value.bool false) = Outcome.ret (0, none) :=
  ⟨rfl, rfl⟩

/-- The conversion `float64(n)` is exact up to `2^53` in magnitude. -/
theorem float64_exact (n : Int) (h : n.natAbs ≤ 2 ^ 53) : float64 n = n := by
  rcases Nat.lt_or_ge n.natAbs (2 ^ 53) with hlt | hge
  · have hf : (List.range 11).filter (fun k => decide (2 ^ (53 + k) ≤ n.natAbs)) = [] := by
      rw [List.filter_eq_nil_iff]
      intro k _
      have hk : 2 ^ 53 ≤ 2 ^ (53 + k) := Nat.pow_le_pow_right (by decide) (by omega)
      simp only [decide_eq_true_eq]
      omega
    unfold float64
    simp only [hf, List.length_nil, pow_zero, Nat.div_one, Nat.mod_one]
    have hq : (if 1 < 2 * 0 ∨ 2 * 0 = 1 ∧ n.natAbs % 2 = 1 then n.natAbs + 1 else n.natAbs)
        = n.natAbs := by
      rw [if_neg]
      omega
    rw [hq]
    simp only [Nat.mul_one, Int.ofNat_eq_coe]
    split <;> omega
  · have h1 : n = 2 ^ 53 ∨ n = -2 ^ 53 := by omega
    rcases h1 with h1 | h1 <;> subst h1 <;> decide

/-- C13: on a native integer `n`, `convertToFloat` returns `float64(n)` with no
error, and that float is `n` itself whenever `|n| ≤ 2^53`; just above, at
`2^53 + 1`, the conversion rounds. -/
theorem C13_int_is_converted (n : Int) :
    convertToFloat (Value.int n) = Outcome.ret (float64 n, none) ∧
    (n.natAbs ≤ 2 ^ 53 → float64 n = n) ∧
    float64 (2 ^ 53 + 1) = 2 ^ 53 :=
  ⟨rfl, float64_exact n, by decide⟩

theorem C13_int_is_converted_witness :
    Int.natAbs (-9007199254740992) ≤ 2 ^ 53 ∧
    convertToFloat (Value.int (-9007199254740992)) =
      Outcome.ret (float64 (-9007199254740992), none) ∧
    float64 (-9007199254740992) = -9007199254740992 :=
  ⟨by decide, (C13_int_is_converted (-9007199254740992)).1,
    (C13_int_is_converted (-9007199254740992)).2.1 (by decide)⟩

/-! ## What Fetch returns, when it returns -/

/-- An error comes out of `convertToFloat` with the value `0.0`. -/
theorem convertToFloat_error_value (v : Value) (x : Int) (e : GoError)
    (h : convertToFloat v = Outcome.ret (x, some e)) : x = 0 := by
  cases v with
  | nil => cases h
  | str s =>
    cases hp : HasPrefix s (ascii "0x") with
    | true =>
      rw [convertToFloat_prefixed s hp] at h
      rcases hP : ParseInt (dropLeading0x s) 16 64 with ⟨y, _ | e1⟩
      · rw [hP] at h
        cases h
      · rw [hP] at h
        cases h
        rfl
    | false =>
      rw [convertToFloat_plain s hp] at h
      rcases hD : ParseInt s 10 64 with ⟨y, _ | e1⟩
      · rw [hD] at h
        cases h
      · rcases hH : ParseInt s 16 64 with ⟨z, _ | e2⟩
        · rw [hD, hH] at h
          cases h
        · rw [hD, hH] at h
          cases h
          rfl
  | int n => cases h
  | bool b => cases h
  | float b => cases h
  | map m => cases h
  | slice xs => cases h

/-- When the loop of `Fetch` returns, every field was converted and the slots
from `i` on hold the records of the fields, in order. -/
theorem fetchLoop_ret (w : World) (mapData : JSONMap) :
    ∀ (fields : List Field) (pre junk rs : List ResultConvert),
      junk.length = fields.length →
      fetchLoop w mapData fields pre.length (pre ++ junk) = Outcome.ret rs →
      rs = pre ++ fields.map (fieldRecord w mapData) ∧
      ∀ f ∈ fields, convertToFloat (w.Find mapData f.Selector).1 =
        Outcome.ret (returned (w.Find mapData f.Selector).1) := by
  intro fields
  induction fields with
  | nil =>
    intro pre junk rs hlen h
    have hj : junk = [] := List.length_eq_zero.mp hlen
    subst hj
    simp only [fetchLoop, Outcome.ret.injEq] at h
    exact ⟨by simpa using h.symm, fun f hf => by cases hf⟩
  | cons f fs ih =>
    intro pre junk rs hlen h
    cases junk with
    | nil => simp at hlen
    | cons j junk =>
      cases hc : convertToFloat (w.Find mapData f.Selector).1 with
      | panic msg =>
        simp only [fetchLoop, hc] at h
        cases h
      | ret p =>
        have hret : convertToFloat (w.Find mapData f.Selector).1 =
            Outcome.ret (returned (w.Find mapData f.Selector).1) := by
          unfold returned
          rw [hc]
        have hstep : fetchLoop w mapData (f :: fs) pre.length (pre ++ j :: junk) =
            fetchLoop w mapData fs (pre.length + 1)
              ((pre ++ j :: junk).set pre.length (fieldRecord w mapData f)) := by
          simp only [fetchLoop, hret]
          rfl
        rw [hstep, set_length_append] at h
        have h2 := ih (pre ++ [fieldRecord w mapData f]) junk rs (by simpa using hlen)
          (by simpa using h)
        refine ⟨by simpa using h2.1, ?_⟩
        intro g hg
        rcases List.mem_cons.mp hg with hg | hg
        · subst hg
          exact hret
        · exact h2.2 g hg

/-- A sequence returned by `Fetch` is the list of the records of the fields, over
the decoded body, and each field was converted without a panic. -/
theorem Fetch_ret (w : World) (config : RPCFetchConfig) (rs : List ResultConvert)
    (err : Option GoError) (h : Fetch w config = Outcome.ret (some rs, err)) :
    ∃ mapData, rs = config.Fields.map (fieldRecord w mapData) ∧ err = none ∧
      ∀ f ∈ config.Fields, convertToFloat (w.Find mapData f.Selector).1 =
        Outcome.ret (returned (w.Find mapData f.Selector).1) := by
  unfold Fetch at h
  simp only [] at h
  split at h
  · cases h
  · split at h
    · cases h
    · split at h
      · cases h
      · split at h
        · cases h
        · split at h
          · cases h
          · rename_i mapData _
            split at h
            · cases h
            · rename_i ret hloop
              have hl := fetchLoop_ret w mapData config.Fields []
                (List.replicate config.Fields.length zeroResult) ret (by simp)
                (by simpa using hloop)
              simp only [Outcome.ret.injEq, Prod.mk.injEq, Option.some.injEq] at h
              refine ⟨mapData, ?_, h.2.symm, hl.2⟩
              rw [← h.1]
              simpa using hl.1

/-- C14: when `convertToFloat` returns an error the float it returns is `0.0`,
and every record of a sequence returned by `Fetch` whose `Err` is set has
`Value = 0.0`. -/
theorem C14_value_zero_on_error :
    (∀ v x e, convertToFloat v = Outcome.ret (x, some e) → x = 0) ∧
    (∀ w config rs err, Fetch w config = Outcome.ret (some rs, err) →
      ∀ r ∈ rs, r.Err ≠ none → r.Value = 0) := by
  refine ⟨convertToFloat_error_value, ?_⟩
  intro w config rs err h r hr hErr
  obtain ⟨mapData, hrs, _, hconv⟩ := Fetch_ret w config rs err h
  rw [hrs] at hr
  obtain ⟨f, hf, hrf⟩ := List.mem_map.mp hr
  subst hrf
  have hc := hconv f hf
  cases he : (returned (w.Find mapData f.Selector).1).2 with
  | none => exact absurd he hErr
  | some e =>
    have hp : returned (w.Find mapData f.Selector).1 =
        ((returned (w.Find mapData f.Selector).1).1, some e) := by
      rw [← he]
    rw [hp] at hc
    exact convertToFloat_error_value _ _ _ hc

theorem C14_value_zero_on_error_witness :
    (convertToFloat (Value.str (ascii "1.5")) =
        Outcome.ret (0, some (GoError.num ⟨"ParseInt", ascii "1.5", ErrKind.ErrSyntax⟩)) ∧
      (0 : Int) = 0) ∧
    (Fetch (sampleWorld 200 (ascii "\x7b\"a\":\"1.5\"\x7d")
        [(ascii "a", Value.str (ascii "1.5"))] keySelector)
        (sampleConfig [⟨ascii "a", ascii "height"⟩]) =
      Outcome.ret (some [⟨ascii "a", ascii "height", 0,
        some (GoError.num ⟨"ParseInt", ascii "1.5", ErrKind.ErrSyntax⟩)⟩], none) ∧
      (⟨ascii "a", ascii "height", 0,
        some (GoError.num ⟨"ParseInt", ascii "1.5", ErrKind.ErrSyntax⟩)⟩ : ResultConvert).Value
        = 0) :=
  ⟨⟨by decide, C14_value_zero_on_error.1 (Value.str (ascii "1.5")) 0
      (GoError.num ⟨"ParseInt", ascii "1.5", ErrKind.ErrSyntax⟩) (by decide)⟩,
   ⟨by decide, C14_value_zero_on_error.2
      (sampleWorld 200 (ascii "\x7b\"a\":\"1.5\"\x7d")
        [(ascii "a", Value.str (ascii "1.5"))] keySelector)
      (sampleConfig [⟨ascii "a", ascii "height"⟩])
      [⟨ascii "a", ascii "height", 0,
        some (GoError.num ⟨"ParseInt", ascii "1.5", ErrKind.ErrSyntax⟩)⟩] none (by decide)
      ⟨ascii "a", ascii "height", 0,
        some (GoError.num ⟨"ParseInt", ascii "1.5", ErrKind.ErrSyntax⟩)⟩
      (List.mem_singleton.mpr rfl) (by decide)⟩⟩

/-! ## Strings that are no literal -/

/-- A string without the `0x` prefix that is neither a base-10 nor a base-16
literal is rejected, with value `0.0`. -/
theorem convertToFloat_plain_error (s : GoString) (hp : HasPrefix s (ascii "0x") = false)
    (h10 : int64Literal 10 s = none) (h16 : int64Literal 16 s = none) :
    ∃ e, convertToFloat (Value.str s) = Outcome.ret (0, some e) := by
  obtain ⟨y, e1, he1⟩ := (ParseInt_spec 10 (by decide) (by decide) s).2 h10
  obtain ⟨z, e2, he2⟩ := (ParseInt_spec 16 (by decide) (by decide) s).2 h16
  exact ⟨GoError.num e2, by rw [convertToFloat_plain s hp, he1, he2]⟩

/-- A string with the `0x` prefix whose trimmed rest is no base-16 literal is
rejected, with value `0.0`. -/
theorem convertToFloat_prefixed_error (s : GoString) (hp : HasPrefix s (ascii "0x") = true)
    (h16 : int64Literal 16 (dropLeading0x s) = none) :
    ∃ e, convertToFloat (Value.str s) = Outcome.ret (0, some e) := by
  obtain ⟨z, e2, he2⟩ := (ParseInt_spec 16 (by decide) (by decide) (dropLeading0x s)).2 h16
  exact ⟨GoError.num e2, by rw [convertToFloat_prefixed s hp, he2]⟩

theorem digitsAcc_none_of_point (base : Nat) :
    ∀ (cs : GoString) (a : Nat), 46 ∈ cs → digitsAcc base cs a = none := by
  intro cs
  induction cs with
  | nil => intro a h; cases h
  | cons c cs ih =>
    intro a h
    unfold digitsAcc
    rcases List.mem_cons.mp h with h | h
    · subst h
      rfl
    · cases charDigit c with
      | none => rfl
      | some d =>
        by_cases hd : d < base
        · simp only [hd, if_true]
          exact ih _ h
        · simp only [hd, if_false]

theorem natLiteral_none_of_point (base : Nat) (s : GoString) (h : 46 ∈ s) :
    natLiteral base s = none := by
  unfold natLiteral
  split
  · rfl
  · exact digitsAcc_none_of_point base s 0 h

theorem int64Literal_none_of_point (base : Nat) (s : GoString) (h : 46 ∈ s) :
    int64Literal base s = none := by
  have hi : intLiteral base s = none := by
    cases s with
    | nil => rfl
    | cons c rest =>
      have hrest : c = 43 ∨ c = 45 → 46 ∈ rest := by
        intro hc
        rcases List.mem_cons.mp h with h | h
        · omega
        · exact h
      simp only [intLiteral]
      by_cases h43 : c = 43
      · rw [if_pos h43, natLiteral_none_of_point base rest (hrest (Or.inl h43))]
        rfl
      · by_cases h45 : c = 45
        · rw [if_neg h43, if_pos h45, natLiteral_none_of_point base rest (hrest (Or.inr h45))]
          rfl
        · rw [if_neg h43, if_neg h45, natLiteral_none_of_point base (c :: rest) h]
          rfl
  unfold int64Literal
  rw [hi]
  rfl

theorem point_mem_dropLeading0x : ∀ (s : GoString), 46 ∈ s → 46 ∈ dropLeading0x s := by
  intro s
  induction s with
  | nil => intro h; cases h
  | cons c cs ih =>
    intro h
    unfold dropLeading0x
    by_cases hc : c = 48 ∨ c = 120
    · rw [List.dropWhile_cons_of_pos (by simpa using hc)]
      rcases List.mem_cons.mp h with h | h
      · omega
      · exact ih h
    · rw [List.dropWhile_cons_of_neg (by simpa using hc)]
      exact h

/-- C15: a string that contains a decimal point is rejected, with or without the
`0x` prefix: `convertToFloat` returns an error and the value `0.0`. -/
theorem C15_fractional_rejected (s : GoString) (h : 46 ∈ s) :
    ∃ e, convertToFloat (Value.str s) = Outcome.ret (0, some e) := by
  cases hp : HasPrefix s (ascii "0x") with
  | true =>
    exact convertToFloat_prefixed_error s hp
      (int64Literal_none_of_point 16 _ (point_mem_dropLeading0x s h))
  | false =>
    exact convertToFloat_plain_error s hp (int64Literal_none_of_point 10 s h)
      (int64Literal_none_of_point 16 s h)

theorem C15_fractional_rejected_witness :
    (46 ∈ ascii "3.14" ∧ ∃ e, convertToFloat (Value.str (ascii "3.14")) = Outcome.ret (0, some e)) ∧
    (46 ∈ ascii "1.0" ∧ ∃ e, convertToFloat (Value.str (ascii "1.0")) = Outcome.ret (0, some e)) ∧
    (46 ∈ ascii "0x1.8" ∧
      ∃ e, convertToFloat (Value.str (ascii "0x1.8")) = Outcome.ret (0, some e)) :=
  ⟨⟨by decide, C15_fractional_rejected (ascii "3.14") (by decide)⟩,
   ⟨by decide, C15_fractional_rejected (ascii "1.0") (by decide)⟩,
   ⟨by decide, C15_fractional_rejected (ascii "0x1.8") (by decide)⟩⟩

/-! ## Decimal digits read in base 16 -/

theorem digitsAcc_10_le_16 :
    ∀ (cs : GoString) (a b v : Nat), a ≤ b → digitsAcc 10 cs a = some v →
      ∃ v16, digitsAcc 16 cs b = some v16 ∧ v ≤ v16 := by
  intro cs
  induction cs with
  | nil =>
    intro a b v hab h
    simp only [digitsAcc, Option.some.injEq] at h
    exact ⟨b, rfl, by omega⟩
  | cons c cs ih =>
    intro a b v hab h
    unfold digitsAcc at h
    unfold digitsAcc
    cases hc : charDigit c with
    | none => simp [hc] at h
    | some d =>
      simp only [hc] at h
      by_cases hd : d < 10
      · simp only [hd, if_true] at h
        have hd16 : d < 16 := by omega
        simp only [hd16, if_true]
        exact ih _ _ v (by omega) h
      · simp [hd] at h

theorem natLiteral_10_le_16 (s : GoString) (v : Nat) (h : natLiteral 10 s = some v) :
    ∃ v16, natLiteral 16 s = some v16 ∧ v ≤ v16 := by
  unfold natLiteral at h
  unfold natLiteral
  by_cases hs : s = []
  · simp [hs] at h
  · simp only [hs, if_false] at h
    simp only [hs, if_false]
    exact digitsAcc_10_le_16 s 0 0 v (le_refl 0) h

/-- A base-10 literal is a base-16 literal too, of the same sign and at least
as large in magnitude. -/
theorem intLiteral_10_16 (s : GoString) (v : Int) (h : intLiteral 10 s = some v) :
    ∃ v16, intLiteral 16 s = some v16 ∧ (0 < v → v ≤ v16) ∧ (v < 0 → v16 ≤ v) := by
  cases s with
  | nil => simp [intLiteral] at h
  | cons c rest =>
    simp only [intLiteral] at h ⊢
    by_cases h43 : c = 43
    · rw [if_pos h43] at h ⊢
      cases hn : natLiteral 10 rest with
      | none => simp [hn] at h
      | some u =>
        obtain ⟨u16, hu16, hle⟩ := natLiteral_10_le_16 rest u hn
        simp only [hn, Option.map_some', Option.some.injEq] at h
        subst h
        refine ⟨Int.ofNat u16, by simp [hu16], ?_, ?_⟩
        · intro _; simp only [Int.ofNat_eq_coe]; omega
        · intro h0; simp only [Int.ofNat_eq_coe] at *; omega
    · by_cases h45 : c = 45
      · rw [if_neg h43, if_pos h45] at h ⊢
        cases hn : natLiteral 10 rest with
        | none => simp [hn] at h
        | some u =>
          obtain ⟨u16, hu16, hle⟩ := natLiteral_10_le_16 rest u hn
          simp only [hn, Option.map_some', Option.some.injEq] at h
          subst h
          refine ⟨- Int.ofNat u16, by simp [hu16], ?_, ?_⟩
          · intro h0; simp only [Int.ofNat_eq_coe] at *; omega
          · intro _; simp only [Int.ofNat_eq_coe]; omega
      · rw [if_neg h43, if_neg h45] at h ⊢
        cases hn : natLiteral 10 (c :: rest) with
        | none => simp [hn] at h
        | some u =>
          obtain ⟨u16, hu16, hle⟩ := natLiteral_10_le_16 (c :: rest) u hn
          simp only [hn, Option.map_some', Option.some.injEq] at h
          subst h
          refine ⟨Int.ofNat u16, by simp [hu16], ?_, ?_⟩
          · intro _; simp only [Int.ofNat_eq_coe]; omega
          · intro h0; simp only [Int.ofNat_eq_coe] at *; omega

theorem not_prefixed_of_decimal (s : GoString) (v : Int) (h : intLiteral 10 s = some v) :
    HasPrefix s (ascii "0x") = false := by
  have ha : ascii "0x" = [48, 120] := by decide
  rw [ha]
  cases s with
  | nil => rfl
  | cons c rest =>
    cases rest with
    | nil => simp [HasPrefix]
    | cons c2 rest2 =>
      by_cases hc : c = 48 ∧ c2 = 120
      · obtain ⟨h1, h2⟩ := hc
        subst h1
        subst h2
        simp [intLiteral, natLiteral, digitsAcc, charDigit] at h
      · simp only [HasPrefix, List.length_cons, List.length_nil, List.take_succ_cons,
          List.take_zero]
        simp
        intro h1 h2
        exact absurd ⟨h1, h2⟩ hc

/-- C19: a string made of an optional sign and decimal digits whose base-10
value is outside the signed 64-bit range is rejected: the base-16 reading of the
same digits is outside the range as well. -/
theorem C19_decimal_overflow_rejected (s : GoString) (v : Int)
    (hv : intLiteral 10 s = some v) (hr : v < -(2 : Int) ^ 63 ∨ 2 ^ 63 - 1 < v) :
    ∃ e, convertToFloat (Value.str s) = Outcome.ret (0, some e) := by
  obtain ⟨v16, hv16, hpos, hneg⟩ := intLiteral_10_16 s v hv
  have h10 : int64Literal 10 s = none := by
    unfold int64Literal
    rw [hv]
    have hd : decide (-(2 : Int) ^ 63 ≤ v ∧ v ≤ 2 ^ 63 - 1) = false := by
      simp only [decide_eq_false_iff_not]
      omega
    simp only [Option.filter, hd, Bool.false_eq_true, if_false]
  have h16 : int64Literal 16 s = none := by
    unfold int64Literal
    rw [hv16]
    have hd : decide (-(2 : Int) ^ 63 ≤ v16 ∧ v16 ≤ 2 ^ 63 - 1) = false := by
      simp only [decide_eq_false_iff_not]
      omega
    simp only [Option.filter, hd, Bool.false_eq_true, if_false]
  exact convertToFloat_plain_error s (not_prefixed_of_decimal s v hv) h10 h16

theorem C19_decimal_overflow_rejected_witness :
    (intLiteral 10 (ascii "9223372036854775808") = some 9223372036854775808 ∧
      ((9223372036854775808 : Int) < -(2 : Int) ^ 63 ∨ 2 ^ 63 - 1 < (9223372036854775808 : Int))) ∧
    ∃ e, convertToFloat (Value.str (ascii "9223372036854775808")) = Outcome.ret (0, some e) :=
  ⟨⟨by decide, by decide⟩,
    C19_decimal_overflow_rejected (ascii "9223372036854775808") 9223372036854775808
      (by decide) (by decide)⟩

/-! ## Siblings -/

/-- C16 (the code departs from the claim): over the decoded body
`{"a":null,"b":"7"}` the field `b` alone gets the record with value 7; with the
sibling `a`, which locates the null, added after it the call panics and `b` gets
no record. -/
theorem C16_sibling_null_removes_record :
    Fetch (sampleWorld 200 (ascii "\x7b\"a\":null,\"b\":\"7\"\x7d")
        [(ascii "a", Value.nil), (ascii "b", Value.str (ascii "7"))] keySelector)
      (sampleConfig [⟨ascii "b", ascii "peers"⟩]) =
      Outcome.ret (some [⟨ascii "b", ascii "peers", 7, none⟩], none) ∧
    Fetch (sampleWorld 200 (ascii "\x7b\"a\":null,\"b\":\"7\"\x7d")
        [(ascii "a", Value.nil), (ascii "b", Value.str (ascii "7"))] keySelector)
      (sampleConfig [⟨ascii "b", ascii "peers"⟩, ⟨ascii "a", ascii "height"⟩]) =
      Outcome.panic nilDeref := by
  refine ⟨?_, ?_⟩ <;> decide

/-! ## Decoding the body -/

/-- With the request answered by status OK and a readable body, `Fetch` is the
decoder followed by the loop. -/
theorem Fetch_after_body (w : World) (config : RPCFetchConfig) (req : Request) (resp : Response)
    (d : GoString)
    (hreq : w.NewRequest config.Method config.URL
      (if config.Body ≠ [] then some config.Body else none) = Except.ok req)
    (hdo : w.Do req = Except.ok resp) (hst : resp.StatusCode = 200)
    (hbody : resp.Body = Except.ok d) :
    Fetch w config =
      match w.Unmarshal d with
      | Except.error err => Outcome.ret (none, some err)
      | Except.ok mapData =>
        match fetchLoop w mapData config.Fields 0
            (List.replicate config.Fields.length zeroResult) with
        | Outcome.panic msg => Outcome.panic msg
        | Outcome.ret ret => Outcome.ret (some ret, none) := by
  unfold Fetch
  simp only [hreq, hdo, hst, hbody, ne_eq, not_true_eq_false, if_false]

/-- C17, as amended: with status OK, a body that is not a valid JSON text, or
whose top-level value is an array, a string, a number or a boolean, makes `Fetch`
return the nil sequence and a non-nil error. -/
theorem C17_decode_failure_is_fatal (w : World) (config : RPCFetchConfig) (req : Request)
    (resp : Response) (d : GoString) (scan : GoString → Option JSON)
    (hreq : w.NewRequest config.Method config.URL
      (if config.Body ≠ [] then some config.Body else none) = Except.ok req)
    (hdo : w.Do req = Except.ok resp) (hst : resp.StatusCode = 200)
    (hbody : resp.Body = Except.ok d) (hU : w.Unmarshal d = unmarshalMap (scan d))
    (hbad : scan d = none ∨ ∃ j, scan d = some j ∧ j.notForMap = true) :
    ∃ err, Fetch w config = Outcome.ret (none, some err) := by
  rw [Fetch_after_body w config req resp d hreq hdo hst hbody, hU]
  rcases hbad with h | ⟨j, h, hj⟩
  · rw [h]
    exact ⟨_, rfl⟩
  · rw [h]
    cases j with
    | null => cases hj
    | object ms => cases hj
    | bool b => exact ⟨_, rfl⟩
    | number x => exact ⟨_, rfl⟩
    | string s => exact ⟨_, rfl⟩
    | array xs => exact ⟨_, rfl⟩

theorem C17_decode_failure_is_fatal_witness :
    ∃ err, Fetch (jsonWorld 200 (ascii "[1]")
        (tableScan [(ascii "[1]", JSON.array [JSON.number 0x3FF0000000000000])]) keySelector)
      (sampleConfig [⟨ascii "a", ascii "height"⟩]) = Outcome.ret (none, some err) :=
  C17_decode_failure_is_fatal
    (jsonWorld 200 (ascii "[1]")
      (tableScan [(ascii "[1]", JSON.array [JSON.number 0x3FF0000000000000])]) keySelector)
    (sampleConfig [⟨ascii "a", ascii "height"⟩])
    ⟨ascii "GET", ascii "http://localhost/status", none⟩
    ⟨200, Except.ok (ascii "[1]")⟩ (ascii "[1]")
    (tableScan [(ascii "[1]", JSON.array [JSON.number 0x3FF0000000000000])])
    rfl rfl rfl rfl rfl (Or.inr ⟨JSON.array [JSON.number 0x3FF0000000000000], rfl, rfl⟩)

/-- C17 as stated fails for a top-level `null`: with status OK and the body
`null` the decoder reports no error, and `Fetch`, here with no field
configured, returns the empty sequence and a nil error. -/
theorem C17_top_level_null_is_decoded :
    Fetch (jsonWorld 200 (ascii "null") (tableScan [(ascii "null", JSON.null)]) keySelector)
      (sampleConfig []) = Outcome.ret (some [], none) ∧
    ¬ ∃ err, Fetch (jsonWorld 200 (ascii "null") (tableScan [(ascii "null", JSON.null)])
      keySelector) (sampleConfig []) = Outcome.ret (none, some err) := by
  have h : Fetch (jsonWorld 200 (ascii "null") (tableScan [(ascii "null", JSON.null)])
      keySelector) (sampleConfig []) = Outcome.ret (some [], none) := by decide
  refine ⟨h, ?_⟩
  rintro ⟨err, he⟩
  rw [h] at he
  cases he

/-! ## Numbers of the decoded body -/

theorem toValue_ne_int (j : JSON) : typeKind (JSON.toValue j) ≠ some Kind.Int := by
  cases j <;> simp [JSON.toValue, typeKind]

theorem toValues_mem : ∀ (js : List JSON) (x : Value), x ∈ JSON.toValues js →
    ∃ j, x = JSON.toValue j := by
  intro js
  induction js with
  | nil =>
    intro x h
    simp [JSON.toValues] at h
  | cons j js ih =>
    intro x h
    simp only [JSON.toValues, List.mem_cons] at h
    rcases h with h | h
    · exact ⟨j, h⟩
    · exact ih x h

theorem toMembers_mem : ∀ (ms : List (GoString × JSON)) (k : GoString) (x : Value),
    (k, x) ∈ JSON.toMembers ms → ∃ j, x = JSON.toValue j := by
  intro ms
  induction ms with
  | nil =>
    intro k x h
    simp [JSON.toMembers] at h
  | cons m ms ih =>
    intro k x h
    obtain ⟨k0, j0⟩ := m
    simp only [JSON.toMembers] at h
    split at h
    · exact ih k x h
    · rcases List.mem_cons.mp h with h | h
      · exact ⟨j0, (Prod.mk.inj h).2⟩
      · exact ih k x h

/-- Whatever lies inside a decoded JSON value is a decoded JSON value. -/
theorem within_decoded (v t : Value) (h : Within v t) :
    ∀ j, t = JSON.toValue j → ∃ j1, v = JSON.toValue j1 := by
  induction h with
  | self => intro j hj; exact ⟨j, hj⟩
  | slice xs x hx _ ih =>
    intro j hj
    cases j with
    | array js =>
      simp only [JSON.toValue, Value.slice.injEq] at hj
      subst hj
      obtain ⟨j0, hj0⟩ := toValues_mem js x hx
      exact ih j0 hj0
    | null => simp [JSON.toValue] at hj
    | bool b => simp [JSON.toValue] at hj
    | number b => simp [JSON.toValue] at hj
    | string s => simp [JSON.toValue] at hj
    | object ms => simp [JSON.toValue] at hj
  | map m k x hx _ ih =>
    intro j hj
    cases j with
    | object ms =>
      simp only [JSON.toValue, Value.map.injEq] at hj
      subst hj
      obtain ⟨j0, hj0⟩ := toMembers_mem ms k x hx
      exact ih j0 hj0
    | null => simp [JSON.toValue] at hj
    | bool b => simp [JSON.toValue] at hj
    | number b => simp [JSON.toValue] at hj
    | string s => simp [JSON.toValue] at hj
    | array js => simp [JSON.toValue] at hj

/-- With status OK and a body that decodes to an object: a sequence that `Fetch`
returns is the list of the records of the fields, `Fetch` does return it when no
located value is nil, the record of a field whose selector locates a JSON number
has `Value = 0.0` and a nil `Err`, and no value that lies in the tree is of kind
`int`. -/
theorem Fetch_of_decoded_object (w : World) (config : RPCFetchConfig) (req : Request)
    (resp : Response) (d : GoString) (scan : GoString → Option JSON)
    (members : List (GoString × JSON))
    (hreq : w.NewRequest config.Method config.URL
      (if config.Body ≠ [] then some config.Body else none) = Except.ok req)
    (hdo : w.Do req = Except.ok resp) (hst : resp.StatusCode = 200)
    (hbody : resp.Body = Except.ok d) (hU : w.Unmarshal d = unmarshalMap (scan d))
    (hscan : scan d = some (JSON.object members)) :
    (∀ rs err, Fetch w config = Outcome.ret (some rs, err) →
      err = none ∧ rs = config.Fields.map (fieldRecord w (JSON.toMembers members))) ∧
    ((∀ f ∈ config.Fields, (w.Find (JSON.toMembers members) f.Selector).1 ≠ Value.nil) →
      Fetch w config =
        Outcome.ret (some (config.Fields.map (fieldRecord w (JSON.toMembers members))), none)) ∧
    (∀ (f : Field) (bits : Nat),
      (w.Find (JSON.toMembers members) f.Selector).1 = JSON.toValue (JSON.number bits) →
      fieldRecord w (JSON.toMembers members) f = ⟨f.Selector, f.MetricName, 0, none⟩) ∧
    (∀ f : Field, Within (w.Find (JSON.toMembers members) f.Selector).1
        (JSON.toValue (JSON.object members)) →
      typeKind (w.Find (JSON.toMembers members) f.Selector).1 ≠ some Kind.Int) := by
  have hjson : w.Unmarshal d = Except.ok (JSON.toMembers members) := by
    rw [hU, hscan]
    rfl
  have hF := Fetch_after_body w config req resp d hreq hdo hst hbody
  rw [hjson] at hF
  simp only [] at hF
  refine ⟨?_, ?_, ?_, ?_⟩
  · intro rs err h
    rw [hF] at h
    cases hl : fetchLoop w (JSON.toMembers members) config.Fields 0
        (List.replicate config.Fields.length zeroResult) with
    | panic msg =>
      rw [hl] at h
      cases h
    | ret r =>
      rw [hl] at h
      simp only [Outcome.ret.injEq, Prod.mk.injEq, Option.some.injEq] at h
      have h2 := fetchLoop_ret w (JSON.toMembers members) config.Fields []
        (List.replicate config.Fields.length zeroResult) r (by simp) (by simpa using hl)
      refine ⟨h.2.symm, ?_⟩
      rw [← h.1]
      simpa using h2.1
  · intro hnil
    exact Fetch_of_no_nil w config req resp d (JSON.toMembers members) hreq hdo hst hbody
      hjson hnil
  · intro f bits hv
    unfold fieldRecord
    rw [hv]
    rfl
  · intro f hin
    obtain ⟨j1, hj1⟩ := within_decoded _ _ hin (JSON.object members) rfl
    rw [hj1]
    exact toValue_ne_int j1

/-- C18 (the code departs from the claim): every JSON number is decoded to a
`float64`, which `convertToFloat` turns into `0.0` with a nil error, and no
decoded value is of kind `int`.  Over the body `{"height":12345,"a":null}` the
field `height` alone gets the record with `Value = 0.0` and a nil `Err`; with the
field `a`, which locates the null, configured next to it the call panics and the
field that locates the number gets no record. -/
theorem C18_number_field_lost_to_sibling_null :
    (∀ bits, JSON.toValue (JSON.number bits) = Value.float bits) ∧
    (∀ bits, convertToFloat (JSON.toValue (JSON.number bits)) = Outcome.ret (0, none)) ∧
    (∀ j, typeKind (JSON.toValue j) ≠ some Kind.Int) ∧
    Fetch (jsonWorld 200 (ascii "\x7b\"height\":12345,\"a\":null\x7d")
        (tableScan [(ascii "\x7b\"height\":12345,\"a\":null\x7d",
          JSON.object [(ascii "height", JSON.number 0x40C81C8000000000),
            (ascii "a", JSON.null)])]) keySelector)
      (sampleConfig [⟨ascii "height", ascii "block_height"⟩]) =
      Outcome.ret (some [⟨ascii "height", ascii "block_height", 0, none⟩], none) ∧
    Fetch (jsonWorld 200 (ascii "\x7b\"height\":12345,\"a\":null\x7d")
        (tableScan [(ascii "\x7b\"height\":12345,\"a\":null\x7d",
          JSON.object [(ascii "height", JSON.number 0x40C81C8000000000),
            (ascii "a", JSON.null)])]) keySelector)
      (sampleConfig [⟨ascii "height", ascii "block_height"⟩, ⟨ascii "a", ascii "peers"⟩]) =
      Outcome.panic nilDeref := by
  refine ⟨fun _ => rfl, fun _ => rfl, toValue_ne_int, ?_, ?_⟩ <;> decide

end Converter
